import Mathlib

/-!
Verification of the CAD patch parser / applier in `src/cad_agent.py`.

The development is a shallow embedding of the core of `CADAgent`:

* `parseLine` / `parsePatches`  embed `CADAgent._parse_patches` (lines 159-195);
* `applyPatch` / `applyPatches` embed `CADAgent._apply_patches` (lines 197-218);
* `getContextPrompt`            embeds `CADAgent._get_context_prompt` (lines 127-135);
* `runTurn`                     embeds one turn of `CADAgent.generate_patches`
  (lines 137-157) together with the `try/except` of `main` (lines 276-291);
* `HeapAgentState` and friends  give a reference/heap view of the feature
  dictionary, enough to discuss the shallow `dict.copy()` in
  `CADAgent.get_current_state` (lines 220-222).

Python's `json.loads` and `json.dumps` are external library calls whose results
the agent treats as opaque blobs; they are modelled by abstract parameters
`jloads : String → Option JVal` (a `none` result models a raised
`json.JSONDecodeError`, which `_parse_patches` catches) and
`jdumps : JVal → String`.  Python `dict` (insertion ordered, unique keys) is
modelled by an association list with key-uniqueness as an explicit invariant,
with `dictSet` (`d[k] = v`), `dictPop` (`d.pop(k, None)`) and `dictGet`.
-/

/-- JSON-like values, standing in for the Python objects produced by
`json.loads`.  The agent never inspects payload structure, so JSON floats are
not distinguished from integers here; `num` carries an `Int`. -/
inductive JVal where
  | null
  | bool (b : Bool)
  | num (n : Int)
  | str (s : String)
  | arr (elems : List JVal)
  | obj (fields : List (String × JVal))

/-- The six characters stripped by Python's `str.strip()` (ASCII range). -/
def isPySpace (c : Char) : Bool :=
  c = ' ' || c = '\t' || c = '\n' || c = '\r' || c = '\x0B' || c = '\x0C'

/-- Python `str.strip()`: drop leading and trailing whitespace. -/
def pyStrip (s : String) : String :=
  String.mk (((s.data.dropWhile isPySpace).reverse.dropWhile isPySpace).reverse)

/-- Python `str.upper()` (ASCII case mapping, which is all the action tokens
of the grammar need). -/
def pyUpper (s : String) : String :=
  String.mk (s.data.map Char.toUpper)

/-- Split a character list at every character satisfying `p`, keeping empty
fields — the semantics of Python `str.split(sep)` for a one-character
separator (with `p` testing for that separator). -/
def splitP (p : Char → Bool) : List Char → List (List Char)
  | [] => [[]]
  | c :: rest =>
      if p c then [] :: splitP p rest
      else
        match splitP p rest with
        | t :: ts => (c :: t) :: ts
        | [] => [[c]]

/-- Rejoin fields with a one-character separator (inverse of `splitP` on the
tail fields, used to keep the remainder of a bounded split intact). -/
def intercalateChar (sep : Char) : List (List Char) → List Char
  | [] => []
  | [x] => x
  | x :: y :: rest => x ++ sep :: intercalateChar sep (y :: rest)

/-- Python `s.split(sep)` for a one-character separator. -/
def pySplitChar (sep : Char) (s : String) : List String :=
  (splitP (fun c => c = sep) s.data).map String.mk

/-- Is `pre` a prefix of `cs`? -/
def charsPrefix : List Char → List Char → Bool
  | [], _ => true
  | _ :: _, [] => false
  | p :: ps, c :: cs => (p = c) && charsPrefix ps cs

/-- Python `s.startswith(pre)`. -/
def pyStartsWith (s pre : String) : Bool :=
  charsPrefix pre.data s.data

/-- Python `s[n:]` for a non-negative index, counted in characters. -/
def pyDrop (n : Nat) (s : String) : String :=
  String.mk (s.data.drop n)

/-- Python `s.split(' ', 2)`: split on single space characters, keeping empty
fields, with at most two splits (the remainder keeps its internal spaces,
reconstructed exactly because every separator is the single space). -/
def pySplitSpace2 (s : String) : List String :=
  match splitP (fun c => c = ' ') s.data with
  | a :: b :: c :: rest =>
      [String.mk a, String.mk b, String.mk (intercalateChar ' ' (c :: rest))]
  | parts => parts.map String.mk

/-- The whitespace-delimited tokens of a string (used to state the spec's
reading of the grammar, not by the embedded code itself). -/
def wsTokens (s : String) : List String :=
  ((splitP isPySpace s.data).filter (fun t => !t.isEmpty)).map String.mk

/-- Numeric value of a list of decimal digits. -/
def digitsVal (cs : List Char) : Nat :=
  cs.foldl (fun a c => a * 10 + (c.toNat - 48)) 0

/-- Python `int(s)` on the underscore-free segments it receives in this
program: optional surrounding whitespace, an optional single sign, then one or
more ASCII decimal digits; anything else raises `ValueError`, modelled as
`none`. -/
def pyInt (s : String) : Option Int :=
  match ((s.data.dropWhile isPySpace).reverse.dropWhile isPySpace).reverse with
  | [] => none
  | c :: cs =>
    if c = '-' then
      if cs ≠ [] ∧ cs.all Char.isDigit then some (-(digitsVal cs : Int)) else none
    else if c = '+' then
      if cs ≠ [] ∧ cs.all Char.isDigit then some ((digitsVal cs : Int)) else none
    else
      if (c :: cs).all Char.isDigit then some ((digitsVal (c :: cs) : Int)) else none

/-- One parsed patch, the dictionary
`{'feature_id': ..., 'action': ..., 'data': ...}` built in `_parse_patches`. -/
structure PatchRecord where
  feature_id : String
  action : String
  data : JVal

/-- Association-list model of a Python `dict`'s `d[k] = v`: overwrite in place
(keeping the entry's position and original key object) when the key is
present, append a fresh entry otherwise. -/
def dictSet {α β : Type} [DecidableEq α] : List (α × β) → α → β → List (α × β)
  | [], k, v => [(k, v)]
  | (k', v') :: rest, k, v =>
      if k' = k then (k', v) :: rest else (k', v') :: dictSet rest k v

/-- Association-list model of `d.pop(k, None)`: remove the entry for `k` if
present (a `dict` holds at most one), otherwise leave the list unchanged. -/
def dictPop {α β : Type} [DecidableEq α] : List (α × β) → α → List (α × β)
  | [], _ => []
  | (k', v') :: rest, k =>
      if k' = k then rest else (k', v') :: dictPop rest k

/-- Association-list model of `d.get(k)` / `d[k]`. -/
def dictGet {α β : Type} [DecidableEq α] : List (α × β) → α → Option β
  | [], _ => none
  | (k', v') :: rest, k =>
      if k' = k then some v' else dictGet rest k

/-- One iteration of the loop of `_parse_patches` (lines 164-193): strip the
line, skip it unless it starts with the three characters `AT `, split the rest
on single spaces at most twice, require at least two parts, upper-case the
action and require it to be INSERT/REPLACE/DELETE, then JSON-parse the third
part (defaulting to the literal `{}` when absent).  A `none` from `jloads`
models the caught `json.JSONDecodeError`. -/
def parseLine (jloads : String → Option JVal) (rawLine : String) : Option PatchRecord :=
  if pyStrip rawLine = "" ∨ ¬ pyStartsWith (pyStrip rawLine) "AT " then none
  else
    match pySplitSpace2 (pyDrop 3 (pyStrip rawLine)) with
    | [] => none
    | [_] => none
    | fid :: act :: rest =>
      if pyUpper act = "INSERT" ∨ pyUpper act = "REPLACE" ∨ pyUpper act = "DELETE" then
        match jloads (match rest with | [] => "{}" | r :: _ => r) with
        | some d => some { feature_id := fid, action := pyUpper act, data := d }
        | none => none
      else none

/-- `CADAgent._parse_patches` (lines 159-195): strip the response, split it on
newlines, and run the per-line loop, appending each successfully parsed record
to the result list. -/
def parsePatches (jloads : String → Option JVal) (response : String) : List PatchRecord :=
  (pySplitChar '\n' (pyStrip response)).foldl
    (fun a l =>
      match parseLine jloads l with
      | some p => a ++ [p]
      | none => a) []

/-- The mutable per-session state touched by `_apply_patches`:
`self.features` (insertion-ordered dict) and `self.feature_counter`. -/
structure AgentState where
  features : List (String × JVal)
  feature_counter : Int

/-- The state built by `CADAgent.__init__` / `reset`: empty store, counter 0. -/
def initState : AgentState := ⟨[], 0⟩

/-- The counter bookkeeping of the INSERT branch (lines 207-212): when the id
starts with `feat_`, take `feat_id.split('_')[1]` — the segment between the
first and second underscore — and try `int(...)` on it; a `ValueError` is
swallowed (`none`). -/
def counterNum (id : String) : Option Int :=
  if pyStartsWith id "feat_" then
    match (pySplitChar '_' id).get? 1 with
    | some seg => pyInt seg
    | none => none
  else none

/-- One iteration of the loop of `_apply_patches` (lines 199-218): INSERT
upserts and may raise the counter, REPLACE upserts, DELETE pops; any other
action string falls through every branch and does nothing (the parser never
produces one). -/
def applyPatch (st : AgentState) (p : PatchRecord) : AgentState :=
  if p.action = "INSERT" then
    ⟨dictSet st.features p.feature_id p.data,
     match counterNum p.feature_id with
     | some n => max st.feature_counter n
     | none => st.feature_counter⟩
  else if p.action = "REPLACE" then
    ⟨dictSet st.features p.feature_id p.data, st.feature_counter⟩
  else if p.action = "DELETE" then
    ⟨dictPop st.features p.feature_id, st.feature_counter⟩
  else st

/-- `CADAgent._apply_patches`: apply the records left to right. -/
def applyPatches (st : AgentState) (patches : List PatchRecord) : AgentState :=
  patches.foldl applyPatch st

/-- `CADAgent._get_context_prompt` (lines 127-135): the empty string for an
empty store, otherwise the fixed header followed by one `- <id>: <dump>` line
per feature, accumulated in store iteration order. -/
def getContextPrompt (jdumps : JVal → String) (features : List (String × JVal)) : String :=
  if features.isEmpty then ""
  else
    features.foldl
      (fun ctx p => ctx ++ "- " ++ p.1 ++ ": " ++ jdumps p.2 ++ "\n")
      "\n\n[Current Design State]\n"

/-- The whole mutable state of a `CADAgent` as observed across turns:
the feature store, the counter, and the conversation history `self.chat`
(modelled as the list of message texts appended to it so far). -/
structure CADAgentState where
  features : List (String × JVal)
  feature_counter : Int
  chat : List String

/-- `full_prompt = user_input + context if context else user_input`
(line 149). -/
def mkFullPrompt (jdumps : JVal → String) (features : List (String × JVal))
    (userInput : String) : String :=
  if getContextPrompt jdumps features = "" then userInput
  else userInput ++ getContextPrompt jdumps features

/-- One interactive turn: `generate_patches` (lines 137-157) run under the
`try/except` of `main` (lines 276-291).  The external `chat.sample()` call is
the parameter `sample`, taking the current chat history; `Except.error`
models a raised network/timeout/API exception.  Note the order in the source:
the user message is appended to `self.chat` *before* `sample()` is called, so
a failing call still leaves the message in the history; `main` catches the
exception (reported as a turn-scoped message) and the loop continues. -/
def runTurn (jloads : String → Option JVal) (jdumps : JVal → String)
    (sample : List String → Except String String)
    (st : CADAgentState) (userInput : String) :
    CADAgentState × Except String (List PatchRecord) :=
  match sample (st.chat ++ [mkFullPrompt jdumps st.features userInput]) with
  | Except.error e =>
      (⟨st.features, st.feature_counter,
        st.chat ++ [mkFullPrompt jdumps st.features userInput]⟩,
       Except.error e)
  | Except.ok content =>
      (⟨(applyPatches ⟨st.features, st.feature_counter⟩ (parsePatches jloads content)).features,
        (applyPatches ⟨st.features, st.feature_counter⟩ (parsePatches jloads content)).feature_counter,
        st.chat ++ [mkFullPrompt jdumps st.features userInput]⟩,
       Except.ok (parsePatches jloads content))

/-- Reference/heap view of the live feature store, for talking about Python
object aliasing: `featuresRef` is the dict mapping ids to *references* of
payload objects, and `heap` gives each reference its current payload value. -/
structure HeapAgentState where
  featuresRef : List (String × Nat)
  heap : List (Nat × JVal)

/-- `CADAgent.get_current_state` (lines 220-222): `self.features.copy()` — a
*shallow* copy: a fresh top-level mapping holding the same payload references
as the live store. -/
def getCurrentState (s : HeapAgentState) : List (String × Nat) :=
  s.featuresRef

/-- In-place mutation of the payload object behind reference `a` (e.g.
`snapshot["feat_001"]["radius"] = 9` performed by a caller on the returned
snapshot). -/
def heapWrite (s : HeapAgentState) (a : Nat) (v : JVal) : HeapAgentState :=
  ⟨s.featuresRef, dictSet s.heap a v⟩

/-- The payload the *live* store currently shows for `id`: follow the live
dict's reference into the heap. -/
def liveValue (s : HeapAgentState) (id : String) : Option JVal :=
  match dictGet s.featuresRef id with
  | some a => dictGet s.heap a
  | none => none

/-- Minimal concrete stand-in for `json.loads`, used only to build concrete
witnesses and counterexamples; it agrees with `json.loads` on the inputs those
use (the literal `{}` parses to the empty object, the other strings appearing
in them are not valid JSON). -/
def jloadsModel (s : String) : Option JVal :=
  if s = "{}" then some (JVal.obj []) else none

/-- Minimal concrete stand-in for `json.dumps`, used only in concrete
witnesses and counterexamples (none of which depend on the rendered text). -/
def jdumpsModel : JVal → String
  | JVal.num n => toString n
  | _ => "null"

/-- The numeric counter contribution of a record: the parsed suffix for an
INSERT record, nothing for any other action. -/
def insertNum (p : PatchRecord) : Option Int :=
  if p.action = "INSERT" then counterNum p.feature_id else none

/-- Counter effect of a single record, as a fold step: only INSERT touches the
counter, via `max` with the parsed numeric suffix. -/
def counterStep (c : Int) (p : PatchRecord) : Int :=
  match insertNum p with
  | some n => max c n
  | none => c

/-! ### String helper lemmas -/

theorem str_empty_append (s : String) : "" ++ s = s := rfl

theorem str_append_empty (s : String) : s ++ "" = s :=
  congrArg String.mk (List.append_nil s.data)

theorem str_append_assoc (a b c : String) : a ++ b ++ c = a ++ (b ++ c) :=
  congrArg String.mk (List.append_assoc a.data b.data c.data)

theorem str_foldl_append (t : List String) (acc : String) :
    t.foldl (fun r s => r ++ s) acc = acc ++ t.foldl (fun r s => r ++ s) "" := by
  induction t generalizing acc with
  | nil => exact (str_append_empty acc).symm
  | cons a t ih =>
      rw [List.foldl_cons, List.foldl_cons, ih (acc ++ a), ih ("" ++ a),
        str_empty_append, str_append_assoc]

theorem str_join_cons (a : String) (t : List String) :
    String.join (a :: t) = a ++ String.join t := by
  unfold String.join
  rw [List.foldl_cons, str_empty_append, str_foldl_append]

/-! ### Dictionary (association list) lemmas -/

theorem dictGet_dictSet_self {α β : Type} [DecidableEq α]
    (l : List (α × β)) (k : α) (v : β) :
    dictGet (dictSet l k v) k = some v := by
  induction l with
  | nil => simp [dictSet, dictGet]
  | cons hd t ih =>
      obtain ⟨k', v'⟩ := hd
      by_cases h : k' = k
      · simp [dictSet, dictGet, h]
      · simp [dictSet, dictGet, h, ih]

theorem keys_dictSet_of_mem {α β : Type} [DecidableEq α]
    (l : List (α × β)) (k : α) (v : β) (h : k ∈ l.map Prod.fst) :
    (dictSet l k v).map Prod.fst = l.map Prod.fst := by
  induction l with
  | nil => simp at h
  | cons hd t ih =>
      obtain ⟨k', v'⟩ := hd
      by_cases hk : k' = k
      · simp [dictSet, hk]
      · rw [List.map_cons] at h
        rcases List.mem_cons.mp h with h | h
        · exact absurd h.symm hk
        · simp [dictSet, hk, ih h]

theorem keys_dictSet_of_not_mem {α β : Type} [DecidableEq α]
    (l : List (α × β)) (k : α) (v : β) (h : k ∉ l.map Prod.fst) :
    (dictSet l k v).map Prod.fst = l.map Prod.fst ++ [k] := by
  induction l with
  | nil => simp [dictSet]
  | cons hd t ih =>
      obtain ⟨k', v'⟩ := hd
      rw [List.map_cons] at h
      by_cases hk : k' = k
      · exact absurd (hk ▸ List.mem_cons_self k' _) h
      · have ht : k ∉ t.map Prod.fst := fun hm => h (List.mem_cons_of_mem _ hm)
        simp [dictSet, hk, ih ht]

theorem mem_keys_dictSet {α β : Type} [DecidableEq α]
    (l : List (α × β)) (k : α) (v : β) :
    k ∈ (dictSet l k v).map Prod.fst := by
  by_cases h : k ∈ l.map Prod.fst
  · rw [keys_dictSet_of_mem l k v h]; exact h
  · rw [keys_dictSet_of_not_mem l k v h]
    exact List.mem_append_right _ (List.mem_singleton.mpr rfl)

theorem nodup_keys_dictSet {α β : Type} [DecidableEq α]
    (l : List (α × β)) (k : α) (v : β) (h : (l.map Prod.fst).Nodup) :
    ((dictSet l k v).map Prod.fst).Nodup := by
  by_cases hm : k ∈ l.map Prod.fst
  · rwa [keys_dictSet_of_mem l k v hm]
  · rw [keys_dictSet_of_not_mem l k v hm]
    rw [List.nodup_append]
    exact ⟨h, List.nodup_singleton k, by simpa using hm⟩

theorem dictPop_of_not_mem {α β : Type} [DecidableEq α]
    (l : List (α × β)) (k : α) (h : k ∉ l.map Prod.fst) :
    dictPop l k = l := by
  induction l with
  | nil => rfl
  | cons hd t ih =>
      obtain ⟨k', v'⟩ := hd
      rw [List.map_cons] at h
      by_cases hk : k' = k
      · exact absurd (hk ▸ List.mem_cons_self k' _) h
      · have ht : k ∉ t.map Prod.fst := fun hm => h (List.mem_cons_of_mem _ hm)
        simp [dictPop, hk, ih ht]

theorem not_mem_keys_dictPop {α β : Type} [DecidableEq α]
    (l : List (α × β)) (k : α) (h : (l.map Prod.fst).Nodup) :
    k ∉ (dictPop l k).map Prod.fst := by
  induction l with
  | nil => simp [dictPop]
  | cons hd t ih =>
      obtain ⟨k', v'⟩ := hd
      rw [List.map_cons, List.nodup_cons] at h
      by_cases hk : k' = k
      · subst hk
        rw [dictPop, if_pos rfl]
        exact h.1
      · intro hm
        rw [dictPop] at hm
        rw [if_neg hk] at hm
        rw [List.map_cons] at hm
        rcases List.mem_cons.mp hm with hm | hm
        · exact hk hm.symm
        · exact ih h.2 hm

/-! ### Parser helper lemmas -/

theorem foldl_parse_eq (jloads : String → Option JVal)
    (lines : List String) (acc : List PatchRecord) :
    lines.foldl
      (fun a l =>
        match parseLine jloads l with
        | some p => a ++ [p]
        | none => a) acc
      = acc ++ lines.filterMap (parseLine jloads) := by
  induction lines generalizing acc with
  | nil => simp
  | cons l t ih =>
      rw [List.foldl_cons, List.filterMap_cons]
      cases hp : parseLine jloads l with
      | none => simp only [hp]; exact ih acc
      | some p =>
          simp only [hp]
          rw [ih (acc ++ [p]), List.append_assoc]
          rfl

theorem parseLine_action {jloads : String → Option JVal} {l : String}
    {p : PatchRecord} (h : parseLine jloads l = some p) :
    p.action = "INSERT" ∨ p.action = "REPLACE" ∨ p.action = "DELETE" := by
  unfold parseLine at h
  split at h
  · simp at h
  · split at h
    · simp at h
    · simp at h
    · rename_i fid act rest
      split at h
      · rename_i hact
        split at h
        · rename_i d hd
          injection h with h
          subst h
          exact hact
        · simp at h
      · simp at h

/-! ### Applier helper lemmas -/

theorem applyPatch_insert_eq (st : AgentState) (id : String) (d : JVal) :
    applyPatch st ⟨id, "INSERT", d⟩ =
      ⟨dictSet st.features id d,
       match counterNum id with
       | some n => max st.feature_counter n
       | none => st.feature_counter⟩ := by
  simp [applyPatch]

theorem applyPatch_replace_eq (st : AgentState) (id : String) (d : JVal) :
    applyPatch st ⟨id, "REPLACE", d⟩ =
      ⟨dictSet st.features id d, st.feature_counter⟩ := by
  simp [applyPatch]

theorem applyPatch_delete_eq (st : AgentState) (id : String) (d : JVal) :
    applyPatch st ⟨id, "DELETE", d⟩ =
      ⟨dictPop st.features id, st.feature_counter⟩ := by
  simp [applyPatch]

theorem applyPatch_counter_step (st : AgentState) (p : PatchRecord) :
    (applyPatch st p).feature_counter = counterStep st.feature_counter p := by
  unfold applyPatch counterStep insertNum
  by_cases hI : p.action = "INSERT"
  · rw [if_pos hI, if_pos hI]
  · rw [if_neg hI, if_neg hI]
    by_cases hR : p.action = "REPLACE"
    · rw [if_pos hR]
    · rw [if_neg hR]
      by_cases hD : p.action = "DELETE"
      · rw [if_pos hD]
      · rw [if_neg hD]

theorem applyPatches_counter (l : List PatchRecord) (st : AgentState) :
    (applyPatches st l).feature_counter = l.foldl counterStep st.feature_counter := by
  induction l generalizing st with
  | nil => rfl
  | cons p t ih =>
      show (applyPatches (applyPatch st p) t).feature_counter = _
      rw [ih (applyPatch st p), List.foldl_cons, applyPatch_counter_step]

theorem int_max_right_comm (a b c : Int) : max (max a b) c = max (max a c) b := by
  rw [max_assoc, max_comm b c, ← max_assoc]

theorem counterStep_comm (c : Int) (p q : PatchRecord) :
    counterStep (counterStep c p) q = counterStep (counterStep c q) p := by
  unfold counterStep
  cases insertNum p with
  | none => cases insertNum q <;> rfl
  | some n =>
      cases insertNum q with
      | none => rfl
      | some m => exact int_max_right_comm c n m

theorem foldl_counterStep_perm {l₁ l₂ : List PatchRecord} (h : l₁.Perm l₂) :
    ∀ c : Int, l₁.foldl counterStep c = l₂.foldl counterStep c := by
  induction h with
  | nil => intro c; rfl
  | cons x h ih =>
      intro c
      rw [List.foldl_cons, List.foldl_cons]
      exact ih _
  | swap x y l =>
      intro c
      rw [List.foldl_cons, List.foldl_cons, List.foldl_cons, List.foldl_cons,
        counterStep_comm]
  | trans h1 h2 ih1 ih2 =>
      intro c
      exact (ih1 c).trans (ih2 c)

/-! ### Context formatter helper lemma -/

theorem context_foldl (jdumps : JVal → String) (l : List (String × JVal)) (acc : String) :
    l.foldl (fun ctx p => ctx ++ "- " ++ p.1 ++ ": " ++ jdumps p.2 ++ "\n") acc
      = acc ++ String.join (l.map (fun p => "- " ++ p.1 ++ ": " ++ jdumps p.2 ++ "\n")) := by
  induction l generalizing acc with
  | nil => exact (str_append_empty acc).symm
  | cons p t ih =>
      rw [List.map_cons, List.foldl_cons, ih, str_join_cons]
      simp only [str_append_assoc]

/-! ### Claim C1 -/

/-- C1: parsing is total and in input order.  `_parse_patches` is a total
function of the response text (every fallible step — a malformed line, a
failing `json.loads`, missing tokens — is skipped, never raised), and its
output is exactly the in-order filter-map of the per-line parser over the
input lines, so the records appear in input line order; moreover every
record it returns carries one of the three valid actions.  This holds for
every JSON-parsing oracle `jloads`, i.e. regardless of which remainders are
valid JSON. -/
theorem parse_patches_total_ordered (jloads : String → Option JVal) (response : String) :
    parsePatches jloads response =
      (pySplitChar '\n' (pyStrip response)).filterMap (parseLine jloads) ∧
    (parsePatches jloads response).all
      (fun p => p.action == "INSERT" || p.action == "REPLACE" || p.action == "DELETE")
      = true := by
  have h1 : parsePatches jloads response =
      (pySplitChar '\n' (pyStrip response)).filterMap (parseLine jloads) := by
    unfold parsePatches
    rw [foldl_parse_eq]
    exact List.nil_append _
  refine ⟨h1, ?_⟩
  rw [h1, List.all_eq_true]
  intro p hp
  obtain ⟨l, -, hl⟩ := List.mem_filterMap.mp hp
  rcases parseLine_action hl with h | h | h <;> simp [h]

/-! ### Claim C2 -/

/-- C2, counterexample to the claim as stated.  The claim promises a record
for every trimmed line whose *whitespace-delimited* tokens are `AT`, a
feature id, a valid action, and a JSON remainder.  The line
`AT  feat_001 INSERT {}` (two spaces after `AT`) has exactly the
whitespace-delimited tokens `AT feat_001 INSERT {}` and its remainder `{}`
parses as JSON, yet `_parse_patches` returns no record for it: the code
splits on *single spaces* (`line[3:].split(' ', 2)`), so it reads the empty
feature id and the action token `feat_001`, which is not a valid action, and
skips the line. -/
theorem parse_line_ws_counterexample :
    wsTokens (pyStrip "AT  feat_001 INSERT {}") = ["AT", "feat_001", "INSERT", "{}"] ∧
    jloadsModel "{}" = some (JVal.obj []) ∧
    parsePatches jloadsModel "AT  feat_001 INSERT {}" = [] :=
  ⟨by decide, rfl, rfl⟩

/-- C2, amended: tokenization is by *single spaces*, not general whitespace.
For every line that, after trimming, starts with the three characters `AT `
and whose remainder splits (on single spaces, at most twice) into a
feature-id part, an action part that upper-cases to INSERT, REPLACE or
DELETE, and a final part that parses as a single JSON value, the parser
emits the record with the feature id verbatim, the action upper-cased, and
the parsed JSON; and every line that after trimming does not start with
`AT ` is silently ignored. -/
theorem parse_line_grammar (jloads : String → Option JVal)
    (line fid act rest : String) (d : JVal) :
    (pyStartsWith (pyStrip line) "AT " = true →
     pySplitSpace2 (pyDrop 3 (pyStrip line)) = [fid, act, rest] →
     (pyUpper act = "INSERT" ∨ pyUpper act = "REPLACE" ∨ pyUpper act = "DELETE") →
     jloads rest = some d →
     parseLine jloads line = some ⟨fid, pyUpper act, d⟩) ∧
    (¬ pyStartsWith (pyStrip line) "AT " = true →
     parseLine jloads line = none) := by
  constructor
  · intro h1 h2 h3 h4
    have hne : ¬ (pyStrip line = "" ∨ ¬ pyStartsWith (pyStrip line) "AT " = true) := by
      push_neg
      refine ⟨?_, h1⟩
      intro h0
      rw [h0] at h1
      exact absurd h1 (by decide)
    unfold parseLine
    rw [if_neg hne]
    simp only [h2]
    rw [if_pos h3]
    simp only [h4]
  · intro h
    unfold parseLine
    rw [if_pos (Or.inr h)]

/-- Witness for `parse_line_grammar` at concrete inputs: a well-formed line
parses to its record, and a prose line is ignored. -/
theorem parse_line_grammar_witness :
    parseLine jloadsModel "AT feat_001 INSERT {}" =
      some ⟨"feat_001", "INSERT", JVal.obj []⟩ ∧
    parseLine jloadsModel "I made a cube for you" = none :=
  ⟨(parse_line_grammar jloadsModel "AT feat_001 INSERT {}" "feat_001" "INSERT" "{}"
      (JVal.obj [])).1 (by decide) (by decide) (Or.inl rfl) rfl,
   (parse_line_grammar jloadsModel "I made a cube for you" "" "" "" JVal.null).2
      (by decide)⟩

/-! ### Claim C3 -/

/-- C3, counterexample to the claim as stated.  The id `feat_1_2` does not
match the pattern `feat_<integer>` — its suffix after `feat_` is `1_2`,
which is not a decimal integer (`pyInt` rejects it) — so the claim requires
the counter to stay unchanged (0).  But `_apply_patches` parses only
`feat_id.split('_')[1]`, the segment between the first and second
underscore, i.e. `1`, and raises the counter to 1 (which is also not 12, the
value of the whole suffix under Python's underscore-tolerant `int`). -/
theorem insert_counter_counterexample :
    ("feat_1_2" : String) = "feat_" ++ "1_2" ∧
    pyInt "1_2" = none ∧
    (applyPatch initState ⟨"feat_1_2", "INSERT", JVal.obj []⟩).feature_counter = 1 ∧
    (1 : Int) ≠ 0 ∧ (1 : Int) ≠ 12 :=
  ⟨rfl, rfl, rfl, by decide, by decide⟩

/-- C3, amended: applying an INSERT whose id starts with `feat_` and whose
segment between the first and second underscore parses as a (sign- and
whitespace-tolerant) decimal integer `n` — `counterNum id = some n` — sets
the counter to `max` of its current value and `n`; every other INSERT leaves
the counter unchanged and surfaces no error.  Consequently, after INSERTs
with ids `feat_003`, `feat_001`, `feat_007` in any order starting from the
initial state, the counter equals 7. -/
theorem insert_counter_semantics :
    (∀ (st : AgentState) (id : String) (d : JVal) (n : Int),
        counterNum id = some n →
        (applyPatch st ⟨id, "INSERT", d⟩).feature_counter = max st.feature_counter n) ∧
    (∀ (st : AgentState) (id : String) (d : JVal),
        counterNum id = none →
        (applyPatch st ⟨id, "INSERT", d⟩).feature_counter = st.feature_counter) ∧
    (∀ l : List PatchRecord,
        l.Perm [⟨"feat_003", "INSERT", JVal.obj []⟩,
                ⟨"feat_001", "INSERT", JVal.obj []⟩,
                ⟨"feat_007", "INSERT", JVal.obj []⟩] →
        (applyPatches initState l).feature_counter = 7) := by
  refine ⟨?_, ?_, ?_⟩
  · intro st id d n h
    rw [applyPatch_insert_eq]
    simp only [h]
  · intro st id d h
    rw [applyPatch_insert_eq]
    simp only [h]
  · intro l hl
    rw [applyPatches_counter, foldl_counterStep_perm hl]
    decide

/-- Witness for `insert_counter_semantics` at concrete inputs:
`feat_005` raises the counter to 5, `feat_xyz` leaves it at 0, and a
permuted order of the three INSERTs of the claim yields 7. -/
theorem insert_counter_semantics_witness :
    (applyPatch initState ⟨"feat_005", "INSERT", JVal.obj []⟩).feature_counter = max 0 5 ∧
    (applyPatch initState ⟨"feat_xyz", "INSERT", JVal.obj []⟩).feature_counter = 0 ∧
    (applyPatches initState
        [⟨"feat_001", "INSERT", JVal.obj []⟩,
         ⟨"feat_007", "INSERT", JVal.obj []⟩,
         ⟨"feat_003", "INSERT", JVal.obj []⟩]).feature_counter = 7 :=
  ⟨insert_counter_semantics.1 initState "feat_005" (JVal.obj []) 5 rfl,
   insert_counter_semantics.2.1 initState "feat_xyz" (JVal.obj []) rfl,
   insert_counter_semantics.2.2 _
     ((List.Perm.cons _ (List.Perm.swap _ _ _)).trans (List.Perm.swap _ _ _))⟩

/-! ### Claim C4 -/

/-- C4, counterexample to the claim as stated.  On the empty (initial) store
the id `feat_010` is absent, and REPLACE and INSERT with it produce the same
FeatureStore — but *not* the same Counter: the REPLACE branch of
`_apply_patches` has no counter bookkeeping, so REPLACE leaves it at 0 while
INSERT raises it to 10.  The two resulting states are therefore not
identical. -/
theorem replace_insert_counter_counterexample :
    ("feat_010" ∉ initState.features.map Prod.fst) ∧
    (applyPatch initState ⟨"feat_010", "REPLACE", JVal.obj []⟩).feature_counter = 0 ∧
    (applyPatch initState ⟨"feat_010", "INSERT", JVal.obj []⟩).feature_counter = 10 ∧
    (0 : Int) ≠ 10 :=
  ⟨by decide, rfl, rfl, by decide⟩

/-- C4, amended: applying REPLACE to an id absent from the store yields the
same resulting FeatureStore as applying INSERT with the same id and payload
(both branches run `self.features[feat_id] = data`), but the Counter may
differ: REPLACE always leaves the counter unchanged, whereas INSERT may
raise it. -/
theorem replace_insert_store_agreement (st : AgentState) (id : String) (d : JVal)
    (_h : id ∉ st.features.map Prod.fst) :
    (applyPatch st ⟨id, "REPLACE", d⟩).features =
      (applyPatch st ⟨id, "INSERT", d⟩).features ∧
    (applyPatch st ⟨id, "REPLACE", d⟩).feature_counter = st.feature_counter := by
  rw [applyPatch_replace_eq, applyPatch_insert_eq]
  exact ⟨rfl, rfl⟩

/-- Witness for `replace_insert_store_agreement` on the empty store with the
absent id `feat_010`. -/
theorem replace_insert_store_agreement_witness :
    (applyPatch initState ⟨"feat_010", "REPLACE", JVal.obj []⟩).features =
      (applyPatch initState ⟨"feat_010", "INSERT", JVal.obj []⟩).features ∧
    (applyPatch initState ⟨"feat_010", "REPLACE", JVal.obj []⟩).feature_counter = 0 :=
  replace_insert_store_agreement initState "feat_010" (JVal.obj []) (by decide)

/-! ### Claim C5 -/

/-- C5: INSERT then REPLACE on the same id (starting from any store with
duplicate-free keys, the `dict` invariant) leaves exactly one entry for that
id — key count 1 — holding the REPLACE's payload, and the key sequence after
the REPLACE is identical to the key sequence after the INSERT, so the entry
sits at the position in iteration order the INSERT gave it. -/
theorem insert_replace_roundtrip (st : AgentState) (id : String) (d₁ d₂ : JVal)
    (hnd : (st.features.map Prod.fst).Nodup) :
    ((applyPatch (applyPatch st ⟨id, "INSERT", d₁⟩) ⟨id, "REPLACE", d₂⟩).features.map Prod.fst
        = (applyPatch st ⟨id, "INSERT", d₁⟩).features.map Prod.fst) ∧
    dictGet (applyPatch (applyPatch st ⟨id, "INSERT", d₁⟩) ⟨id, "REPLACE", d₂⟩).features id
        = some d₂ ∧
    ((applyPatch (applyPatch st ⟨id, "INSERT", d₁⟩) ⟨id, "REPLACE", d₂⟩).features.map
        Prod.fst).count id = 1 := by
  rw [applyPatch_insert_eq, applyPatch_replace_eq]
  have hmem : id ∈ (dictSet st.features id d₁).map Prod.fst :=
    mem_keys_dictSet st.features id d₁
  have hkeys : (dictSet (dictSet st.features id d₁) id d₂).map Prod.fst
      = (dictSet st.features id d₁).map Prod.fst :=
    keys_dictSet_of_mem _ id d₂ hmem
  refine ⟨hkeys, dictGet_dictSet_self _ id d₂, ?_⟩
  rw [hkeys]
  exact List.count_eq_one_of_mem (nodup_keys_dictSet st.features id d₁ hnd) hmem

/-- Witness for `insert_replace_roundtrip` on the empty store. -/
theorem insert_replace_roundtrip_witness :
    ((applyPatch (applyPatch initState ⟨"feat_001", "INSERT", JVal.num 1⟩)
        ⟨"feat_001", "REPLACE", JVal.num 2⟩).features.map Prod.fst
      = (applyPatch initState ⟨"feat_001", "INSERT", JVal.num 1⟩).features.map Prod.fst) ∧
    dictGet (applyPatch (applyPatch initState ⟨"feat_001", "INSERT", JVal.num 1⟩)
        ⟨"feat_001", "REPLACE", JVal.num 2⟩).features "feat_001" = some (JVal.num 2) ∧
    ((applyPatch (applyPatch initState ⟨"feat_001", "INSERT", JVal.num 1⟩)
        ⟨"feat_001", "REPLACE", JVal.num 2⟩).features.map Prod.fst).count "feat_001" = 1 :=
  insert_replace_roundtrip initState "feat_001" (JVal.num 1) (JVal.num 2) (by decide)

/-! ### Claim C6 -/

/-- C6: DELETE removes the id from the store (the id is absent afterwards)
and never touches the counter; when the id is absent the whole state —
store, counter and iteration order — is left unchanged, with no error
raised (`dict.pop(feat_id, None)` with a default never raises); and applying
the same DELETE twice equals applying it once.  The hypothesis is the
`dict` invariant that keys are duplicate-free. -/
theorem delete_absent_noop_idempotent (st : AgentState) (id : String) (d : JVal)
    (hnd : (st.features.map Prod.fst).Nodup) :
    (applyPatch st ⟨id, "DELETE", d⟩).feature_counter = st.feature_counter ∧
    id ∉ (applyPatch st ⟨id, "DELETE", d⟩).features.map Prod.fst ∧
    (id ∉ st.features.map Prod.fst → applyPatch st ⟨id, "DELETE", d⟩ = st) ∧
    applyPatch (applyPatch st ⟨id, "DELETE", d⟩) ⟨id, "DELETE", d⟩ =
      applyPatch st ⟨id, "DELETE", d⟩ := by
  rw [applyPatch_delete_eq]
  refine ⟨rfl, not_mem_keys_dictPop st.features id hnd, ?_, ?_⟩
  · intro h
    rw [dictPop_of_not_mem st.features id h]
  · rw [applyPatch_delete_eq]
    rw [dictPop_of_not_mem _ id (not_mem_keys_dictPop st.features id hnd)]

/-- Witness for `delete_absent_noop_idempotent` on a one-entry store with an
absent id. -/
theorem delete_absent_noop_idempotent_witness :
    (applyPatch ⟨[("feat_001", JVal.num 1)], 5⟩ ⟨"feat_002", "DELETE", JVal.obj []⟩).feature_counter = 5 ∧
    "feat_002" ∉ (applyPatch ⟨[("feat_001", JVal.num 1)], 5⟩
        ⟨"feat_002", "DELETE", JVal.obj []⟩).features.map Prod.fst ∧
    ("feat_002" ∉ ([("feat_001", JVal.num 1)] : List (String × JVal)).map Prod.fst →
      applyPatch ⟨[("feat_001", JVal.num 1)], 5⟩ ⟨"feat_002", "DELETE", JVal.obj []⟩ =
        ⟨[("feat_001", JVal.num 1)], 5⟩) ∧
    applyPatch (applyPatch ⟨[("feat_001", JVal.num 1)], 5⟩ ⟨"feat_002", "DELETE", JVal.obj []⟩)
        ⟨"feat_002", "DELETE", JVal.obj []⟩ =
      applyPatch ⟨[("feat_001", JVal.num 1)], 5⟩ ⟨"feat_002", "DELETE", JVal.obj []⟩ :=
  delete_absent_noop_idempotent ⟨[("feat_001", JVal.num 1)], 5⟩ "feat_002" (JVal.obj [])
    (by decide)

/-! ### Claim C7 -/

/-- C7: the context formatter returns the empty string for an empty store;
for any non-empty store it returns exactly the fixed header
`"\n\n[Current Design State]\n"` followed by the concatenation, in store
iteration (insertion) order, of one line `- <id>: <serialized payload>` per
feature — so every current feature appears exactly once, in order.  This
holds for every serialization oracle `jdumps` standing in for
`json.dumps`. -/
theorem context_prompt_format (jdumps : JVal → String)
    (p : String × JVal) (l : List (String × JVal)) :
    getContextPrompt jdumps [] = "" ∧
    getContextPrompt jdumps (p :: l) =
      "\n\n[Current Design State]\n" ++
        String.join ((p :: l).map (fun q => "- " ++ q.1 ++ ": " ++ jdumps q.2 ++ "\n")) := by
  constructor
  · rfl
  · unfold getContextPrompt
    rw [if_neg (by simp)]
    exact context_foldl jdumps (p :: l) _

/-! ### Claim C8 -/

/-- C8, counterexample to the claim as stated.  When `chat.sample()` fails,
`generate_patches` has *already* executed `self.chat.append(user(full_prompt))`
(line 151 precedes the `sample()` call of line 152), so while the
FeatureStore and Counter are unchanged and the failure is reported as a
turn-scoped error, the conversational context is NOT left unchanged from
before the turn: the chat history has grown by the user message. -/
theorem turn_failure_chat_counterexample :
    (runTurn jloadsModel jdumpsModel (fun _ => Except.error "network error")
        ⟨[("feat_001", JVal.num 1)], 1, ["SYSTEM PROMPT"]⟩ "add a cube").1.features
      = [("feat_001", JVal.num 1)] ∧
    (runTurn jloadsModel jdumpsModel (fun _ => Except.error "network error")
        ⟨[("feat_001", JVal.num 1)], 1, ["SYSTEM PROMPT"]⟩ "add a cube").1.feature_counter
      = 1 ∧
    (runTurn jloadsModel jdumpsModel (fun _ => Except.error "network error")
        ⟨[("feat_001", JVal.num 1)], 1, ["SYSTEM PROMPT"]⟩ "add a cube").2
      = Except.error "network error" ∧
    (runTurn jloadsModel jdumpsModel (fun _ => Except.error "network error")
        ⟨[("feat_001", JVal.num 1)], 1, ["SYSTEM PROMPT"]⟩ "add a cube").1.chat
      ≠ ["SYSTEM PROMPT"] :=
  ⟨rfl, rfl, rfl, by decide⟩

/-- C8, amended: if the external collaborator call fails during a turn, the
FeatureStore and Counter are left unchanged (the response is never parsed or
applied) and the failure is reported as a turn-scoped error value — `main`
catches it and the loop continues — but the conversational context is not
fully restored: the outgoing user message (the raw input plus the context
block), appended to the chat before the call, remains in the history. -/
theorem turn_failure_preserves_store (jloads : String → Option JVal)
    (jdumps : JVal → String) (sample : List String → Except String String)
    (st : CADAgentState) (input e : String)
    (h : sample (st.chat ++ [mkFullPrompt jdumps st.features input]) = Except.error e) :
    (runTurn jloads jdumps sample st input).1.features = st.features ∧
    (runTurn jloads jdumps sample st input).1.feature_counter = st.feature_counter ∧
    (runTurn jloads jdumps sample st input).2 = Except.error e ∧
    (runTurn jloads jdumps sample st input).1.chat =
      st.chat ++ [mkFullPrompt jdumps st.features input] := by
  unfold runTurn
  rw [h]
  exact ⟨rfl, rfl, rfl, rfl⟩

/-- Witness for `turn_failure_preserves_store` with a concretely failing
collaborator call. -/
theorem turn_failure_preserves_store_witness :
    (runTurn jloadsModel jdumpsModel (fun _ => Except.error "timeout")
        ⟨[], 0, ["SYSTEM PROMPT"]⟩ "hello").1.features = [] ∧
    (runTurn jloadsModel jdumpsModel (fun _ => Except.error "timeout")
        ⟨[], 0, ["SYSTEM PROMPT"]⟩ "hello").1.feature_counter = 0 ∧
    (runTurn jloadsModel jdumpsModel (fun _ => Except.error "timeout")
        ⟨[], 0, ["SYSTEM PROMPT"]⟩ "hello").2 = Except.error "timeout" ∧
    (runTurn jloadsModel jdumpsModel (fun _ => Except.error "timeout")
        ⟨[], 0, ["SYSTEM PROMPT"]⟩ "hello").1.chat =
      ["SYSTEM PROMPT"] ++ [mkFullPrompt jdumpsModel [] "hello"] :=
  turn_failure_preserves_store jloadsModel jdumpsModel (fun _ => Except.error "timeout")
    ⟨[], 0, ["SYSTEM PROMPT"]⟩ "hello" "timeout" rfl

/-! ### Claim C9 -/

/-- C9, counterexample to the claim as stated.  `get_current_state` returns
`self.features.copy()`, a *shallow* copy: the snapshot holds the same
payload-object references as the live store.  Concretely, with one feature
whose payload object (reference 0) is `num 1`, the snapshot contains
reference 0, and mutating that payload object in place through the snapshot
(writing `num 2` at reference 0) changes the payload the live store shows
for `feat_001` — the claimed aliasing-freedom of nested payload mutation is
false. -/
theorem snapshot_aliasing_counterexample :
    dictGet (getCurrentState ⟨[("feat_001", 0)], [(0, JVal.num 1)]⟩) "feat_001" = some 0 ∧
    liveValue ⟨[("feat_001", 0)], [(0, JVal.num 1)]⟩ "feat_001" = some (JVal.num 1) ∧
    liveValue (heapWrite ⟨[("feat_001", 0)], [(0, JVal.num 1)]⟩ 0 (JVal.num 2)) "feat_001"
      = some (JVal.num 2) ∧
    JVal.num 1 ≠ JVal.num 2 :=
  ⟨rfl, rfl, rfl, by simp⟩

/-- C9, amended: the state-inspection operation returns a shallow copy — a
fresh top-level mapping holding the same payload references as the live
store (`getCurrentState s = s.featuresRef`) — so nested payload structures
are shared: for any id whose reference `a` appears in the snapshot, an
in-place write of `w` through that reference makes the live store's payload
for that id equal to `w`.  Aliasing-safety holds only at the top level of
the returned mapping, not for nested payload mutation. -/
theorem snapshot_shallow_sharing (s : HeapAgentState) (id : String) (a : Nat) (w : JVal)
    (h : dictGet (getCurrentState s) id = some a) :
    getCurrentState s = s.featuresRef ∧
    liveValue (heapWrite s a w) id = some w := by
  refine ⟨rfl, ?_⟩
  have h' : dictGet s.featuresRef id = some a := h
  unfold liveValue heapWrite
  simp only [h']
  exact dictGet_dictSet_self s.heap a w

/-- Witness for `snapshot_shallow_sharing` on a concrete one-feature state. -/
theorem snapshot_shallow_sharing_witness :
    getCurrentState ⟨[("feat_001", 0)], [(0, JVal.num 1)]⟩ = [("feat_001", 0)] ∧
    liveValue (heapWrite ⟨[("feat_001", 0)], [(0, JVal.num 1)]⟩ 0 (JVal.num 9)) "feat_001"
      = some (JVal.num 9) :=
  snapshot_shallow_sharing ⟨[("feat_001", 0)], [(0, JVal.num 1)]⟩ "feat_001" 0
    (JVal.num 9) rfl

/-! ### Claim C10 -/

/-- C10: the counter never decreases.  REPLACE and DELETE records leave the
counter unchanged for every store, id and payload; and applying any sequence
of records (whatever their actions, ids and payloads) from any starting
state yields a counter at least the starting one — INSERT only ever raises
it via `max`. -/
theorem counter_monotone :
    (∀ (st : AgentState) (id : String) (d : JVal),
        (applyPatch st ⟨id, "REPLACE", d⟩).feature_counter = st.feature_counter) ∧
    (∀ (st : AgentState) (id : String) (d : JVal),
        (applyPatch st ⟨id, "DELETE", d⟩).feature_counter = st.feature_counter) ∧
    (∀ (st : AgentState) (l : List PatchRecord),
        st.feature_counter ≤ (applyPatches st l).feature_counter) := by
  refine ⟨?_, ?_, ?_⟩
  · intro st id d
    rw [applyPatch_replace_eq]
  · intro st id d
    rw [applyPatch_delete_eq]
  · intro st l
    induction l generalizing st with
    | nil => exact le_refl _
    | cons p t ih =>
        have hstep : st.feature_counter ≤ (applyPatch st p).feature_counter := by
          rw [applyPatch_counter_step]
          unfold counterStep
          cases insertNum p with
          | none => exact le_refl _
          | some n => exact le_max_left _ _
        exact hstep.trans (ih (applyPatch st p))
